import Mathlib

/-!
Verification development for the ground-truth-annotation pipeline
(`gtruth_flat_to_yolo.py` and `filter_gtruth_flat_no_empty.py`).

The embedding models:
  * a numeric `numpy` ndarray by its shape together with its row-major
    data, with the consistency condition `data.length = shape.prod`;
  * a table cell (`CellValue`) as the values the scripts dispatch on:
    `None`, a numeric ndarray, an object-dtype ndarray (whose `ravel()`
    order is the element list), or any other non-ndarray value;
  * machine floats as exact rationals (ℚ);
  * the per-cell flattener `normalize_polys_cell`, the per-cell counter
    `polys_in_entry`, the row predicate `row_has_any_polygon`, the
    per-polygon label-line construction inside `convert`, the structural
    checks of `load_flat`, the per-image loop of `convert`, and the
    row-filtering core of the filter script's `main`.
-/

/-- A numeric (non-object dtype) numpy ndarray: its shape and its row-major
flat data.  `size_eq` is numpy's invariant that the number of stored
elements is the product of the shape. -/
structure NumArr where
  shape : List Nat
  data : List ℚ
  size_eq : data.length = shape.prod

instance : DecidableEq NumArr := fun a b =>
  decidable_of_iff (a.shape = b.shape ∧ a.data = b.data) (by cases a; cases b; simp)

/-- `arr.ndim` of a numpy array is the length of its shape. -/
def NumArr.ndim (a : NumArr) : Nat := a.shape.length

/-- Group a flat row-major data list into consecutive coordinate pairs:
for an array of shape `(n, 2)` this recovers the `n` points `(x, y)`. -/
def chunkPairs : List ℚ → List (ℚ × ℚ)
  | x :: y :: rest => (x, y) :: chunkPairs rest
  | _ => []

/-- The rows (points) of an `(n, 2)` array. -/
def NumArr.rows (a : NumArr) : List (ℚ × ℚ) := chunkPairs a.data

/-- One cell of the `labelPolys` table, as dispatched on by
`normalize_polys_cell` and `polys_in_entry`:
`vnone` is Python `None`; `num a` is an ndarray with `dtype != object`;
`container es` is an ndarray with `dtype == object` whose `ravel()`
enumerates `es` in order; `other` is any non-`None`, non-ndarray value. -/
inductive CellValue where
  | vnone : CellValue
  | num : NumArr → CellValue
  | container : List CellValue → CellValue
  | other : CellValue

/-- Induction over `CellValue`, with the members of a container available
as hypotheses. -/
theorem cell_induction (P : CellValue → Prop) (hn : P .vnone) (hm : ∀ a, P (.num a))
    (ho : P .other) (hc : ∀ es, (∀ e ∈ es, P e) → P (.container es)) : ∀ v, P v := by
  intro v
  refine CellValue.rec (motive_1 := P) (motive_2 := fun l => ∀ e ∈ l, P e)
    hn hm (fun es h => hc es h) ho ?_ ?_ v
  · intro e he; simp at he
  · intro e es he hes x hx
    rcases List.mem_cons.mp hx with h | h
    · exact h ▸ he
    · exact hes x h

/-- The validity test of `normalize_polys_cell` (gtruth_flat_to_yolo.py):
`arr.ndim == 2 and arr.shape[1] == 2 and arr.shape[0] >= 3`. -/
def validShape (a : NumArr) : Bool :=
  a.ndim == 2 && a.shape.getD 1 0 == 2 && decide (3 ≤ a.shape.getD 0 0)

mutual
/-- `normalize_polys_cell` (gtruth_flat_to_yolo.py): `None` gives `[]`;
an object-dtype ndarray is flattened recursively over its raveled
elements; a numeric ndarray is kept exactly when its shape passes the
validity test; anything else gives `[]`. -/
def normalize_polys_cell : CellValue → List NumArr
  | .vnone => []
  | .num a => if validShape a then [a] else []
  | .container es => normList es
  | .other => []
/-- The loop `for e in cell_entry.ravel(): polys.extend(...)`. -/
def normList : List CellValue → List NumArr
  | [] => []
  | e :: es => normalize_polys_cell e ++ normList es
end

mutual
/-- Specification-side definition: the numeric leaves of a cell value in
depth-first, left-to-right traversal order (no validity filtering). -/
def dfsLeaves : CellValue → List NumArr
  | .vnone => []
  | .num a => [a]
  | .container es => dfsLeavesList es
  | .other => []
/-- Leaves of a list of cell values, in order. -/
def dfsLeavesList : List CellValue → List NumArr
  | [] => []
  | e :: es => dfsLeaves e ++ dfsLeavesList es
end

/-- The validity test of `polys_in_entry` (filter_gtruth_flat_no_empty.py):
`arr.ndim == 2 and arr.shape[1] == 2 and arr.shape[0] >= 3`. -/
def validShapeFilter (a : NumArr) : Bool :=
  a.ndim == 2 && a.shape.getD 1 0 == 2 && decide (3 ≤ a.shape.getD 0 0)

mutual
/-- `polys_in_entry` (filter_gtruth_flat_no_empty.py): counts the valid
polygons in a cell. -/
def polys_in_entry : CellValue → Nat
  | .vnone => 0
  | .num a => if validShapeFilter a then 1 else 0
  | .container es => polysList es
  | .other => 0
/-- The loop `for e in entry.ravel(): total += polys_in_entry(e)`. -/
def polysList : List CellValue → Nat
  | [] => 0
  | e :: es => polys_in_entry e + polysList es
end

/-- `row_has_any_polygon` (filter_gtruth_flat_no_empty.py): true iff some
cell of the row contains at least one valid polygon. -/
def row_has_any_polygon (row : List CellValue) : Bool :=
  row.any (fun e => polys_in_entry e > 0)

theorem normList_eq (es : List CellValue) :
    normList es = es.flatMap normalize_polys_cell := by
  induction es with
  | nil => rfl
  | cons e es ih => simp [normList, ih]

theorem dfsLeavesList_eq (es : List CellValue) :
    dfsLeavesList es = es.flatMap dfsLeaves := by
  induction es with
  | nil => rfl
  | cons e es ih => simp [dfsLeavesList, ih]

/-- The flattener returns exactly the DFS leaves that pass the validity
test, in traversal order. -/
theorem normalize_eq_filter (v : CellValue) :
    normalize_polys_cell v = (dfsLeaves v).filter validShape := by
  induction v using cell_induction with
  | hn => rfl
  | hm a =>
    simp only [normalize_polys_cell, dfsLeaves, List.filter]
    cases h : validShape a <;> simp [h]
  | ho => rfl
  | hc es ih =>
    show normList es = (dfsLeavesList es).filter validShape
    induction es with
    | nil => rfl
    | cons e es ih2 =>
      simp only [normList, dfsLeavesList, List.filter_append]
      rw [ih e (List.mem_cons_self e es), ih2 (fun x hx => ih x (List.mem_cons_of_mem _ hx))]

/-- Every element of the flattener's output passes the validity test. -/
theorem mem_normalize_valid {v : CellValue} {a : NumArr}
    (h : a ∈ normalize_polys_cell v) : validShape a = true := by
  rw [normalize_eq_filter] at h
  exact List.of_mem_filter h

/-- The two scripts use the same validity test. -/
theorem validShape_agree (a : NumArr) : validShapeFilter a = validShape a := rfl

/-- The filter-side count agrees with the length of the writer-side
flattening. -/
theorem count_eq_length (v : CellValue) :
    polys_in_entry v = (normalize_polys_cell v).length := by
  induction v using cell_induction with
  | hn => rfl
  | hm a =>
    simp only [polys_in_entry, normalize_polys_cell, validShape_agree]
    by_cases h : validShape a = true <;> simp [h]
  | ho => rfl
  | hc es ih =>
    show polysList es = (normList es).length
    induction es with
    | nil => rfl
    | cons e es ih2 =>
      simp only [polysList, normList, List.length_append]
      rw [ih e (List.mem_cons_self e es), ih2 (fun x hx => ih x (List.mem_cons_of_mem _ hx))]

/-- `np.clip(v, lo, hi)`: `min(max(v, lo), hi)`. -/
def clipQ (v lo hi : ℚ) : ℚ := min (max v lo) hi

/-- The strided interleaving `coords[0::2] = x; coords[1::2] = y` for two
equal-length coordinate vectors. -/
def interleave : List ℚ → List ℚ → List ℚ
  | x :: xs, y :: ys => x :: y :: interleave xs ys
  | _, _ => []

/-- Round a rational to the nearest integer (`floor (v + 1/2)`), written
with explicit integer arithmetic so that the kernel can evaluate it. -/
def roundQ (v : ℚ) : Int := Int.fdiv (2 * v.num + v.den) (2 * v.den)

/-- Fixed 6-decimal rendering of a rational, modelling `f"{v:.6f}"`
(floats are modelled as exact rationals, so the tie-breaking of binary
floating point is abstracted as round-to-nearest). -/
def fmt6 (v : ℚ) : String :=
  let n : Int := roundQ (v * 1000000)
  let sgn := if n < 0 then "-" else ""
  let m := n.natAbs
  let fracStr := toString (m % 1000000)
  sgn ++ toString (m / 1000000) ++ "." ++
    String.mk (List.replicate (6 - fracStr.length) '0') ++ fracStr

/-- The interleaved normalized coordinates of `convert`
(gtruth_flat_to_yolo.py): x-column clipped to `[1, W]` and divided by
`W`, y-column clipped to `[1, H]` and divided by `H`, interleaved. -/
def normCoords (W H : Nat) (pts : List (ℚ × ℚ)) : List ℚ :=
  interleave (pts.map (fun p => clipQ p.1 1 W / (W : ℚ)))
             (pts.map (fun p => clipQ p.2 1 H / (H : ℚ)))

/-- One label line of `convert`:
`str(class_id) + " " + " ".join(f"{v:.6f}" for v in coords)`. -/
def lineOf (cid : Nat) (W H : Nat) (pts : List (ℚ × ℚ)) : String :=
  toString cid ++ " " ++ String.intercalate " " ((normCoords W H pts).map fmt6)

/-- Specification-side clamp of a value to the closed interval
`[lo, hi]`. -/
def specClamp (v lo hi : ℚ) : ℚ := if v < lo then lo else if hi < v then hi else v

/-- Specification-side pipeline, following the spec's step order:
(a) clamp each x to `[1, W]` and each y to `[1, H]`; (b) divide x by `W`
and y by `H`; (c) interleave as `x0, y0, x1, y1, ...` preserving vertex
order. -/
def specNormCoords (W H : Nat) (pts : List (ℚ × ℚ)) : List ℚ :=
  ((pts.map (fun p => (specClamp p.1 1 W, specClamp p.2 1 H))).map
      (fun p => (p.1 / (W : ℚ), p.2 / (H : ℚ)))).flatMap (fun p => [p.1, p.2])

/-- Specification-side label line: the class identifier followed by the
normalized coordinates, space-separated, each at 6-decimal precision. -/
def lineOfSpec (cid : Nat) (W H : Nat) (pts : List (ℚ × ℚ)) : String :=
  toString cid ++ " " ++ String.intercalate " " ((specNormCoords W H pts).map fmt6)

theorem clipQ_eq_specClamp {lo hi : ℚ} (h : lo ≤ hi) (v : ℚ) :
    clipQ v lo hi = specClamp v lo hi := by
  unfold clipQ specClamp
  rcases lt_or_le v lo with h1 | h1
  · simp [h1, max_eq_right h1.le, min_eq_left h]
  · rcases lt_or_le hi v with h2 | h2
    · simp [not_lt.mpr h1, h2, max_eq_left h1, min_eq_right h2.le]
    · simp [not_lt.mpr h1, not_lt.mpr h2, max_eq_left h1, min_eq_left h2]

theorem normCoords_nil (W H : Nat) : normCoords W H [] = [] := rfl

theorem normCoords_cons (W H : Nat) (p : ℚ × ℚ) (pts : List (ℚ × ℚ)) :
    normCoords W H (p :: pts) =
      clipQ p.1 1 W / (W : ℚ) :: clipQ p.2 1 H / (H : ℚ) :: normCoords W H pts := rfl

theorem normCoords_eq_spec (W H : Nat) (hW : 1 ≤ W) (hH : 1 ≤ H)
    (pts : List (ℚ × ℚ)) : normCoords W H pts = specNormCoords W H pts := by
  have hW' : (1 : ℚ) ≤ (W : ℚ) := by exact_mod_cast hW
  have hH' : (1 : ℚ) ≤ (H : ℚ) := by exact_mod_cast hH
  induction pts with
  | nil => rfl
  | cons p pts ih =>
    rw [normCoords_cons, ih]
    simp only [specNormCoords, List.map_cons, List.flatMap_cons,
      clipQ_eq_specClamp hW', clipQ_eq_specClamp hH']
    rfl

theorem normCoords_length (W H : Nat) (pts : List (ℚ × ℚ)) :
    (normCoords W H pts).length = 2 * pts.length := by
  induction pts with
  | nil => rfl
  | cons p pts ih => rw [normCoords_cons]; simp [ih]; ring

/-- Bounds for the numpy clip with lower bound 1. -/
theorem clipQ_bounds {W : ℚ} (hW : 1 ≤ W) (v : ℚ) :
    1 ≤ clipQ v 1 W ∧ clipQ v 1 W ≤ W :=
  ⟨le_min (le_max_right v 1) hW, min_le_right _ _⟩

/-- Bounds for a clipped coordinate after division by its dimension. -/
theorem normed_bounds {W : ℚ} (hW : 1 ≤ W) (v : ℚ) :
    1 / W ≤ clipQ v 1 W / W ∧ clipQ v 1 W / W ≤ 1 := by
  have hW0 : (0 : ℚ) < W := lt_of_lt_of_le one_pos hW
  obtain ⟨h1, h2⟩ := clipQ_bounds hW v
  exact ⟨(div_le_div_iff_of_pos_right hW0).mpr h1, (div_le_one hW0).mpr h2⟩

/-- The per-row inner loop of `convert` (gtruth_flat_to_yolo.py): for each
class index `c` in increasing order, flatten cell `c`, re-check each
polygon's shape (`pts.ndim != 2 or pts.shape[1] != 2 or pts.shape[0] < 3`
skips it) and emit one label line per surviving polygon. -/
def labelLines (W H : Nat) (row : List CellValue) : List String :=
  (List.range row.length).flatMap (fun c =>
    ((normalize_polys_cell (row.getD c .vnone)).filter validShape).map
      (fun a => lineOf c W H a.rows))

/-- Specification-side form of the row output: per-class blocks in
ascending class order, concatenated; within a class, the flattening order
of that class's polygons, each line tagged with the class index. -/
def classMajorLines (W H : Nat) (row : List CellValue) : List String :=
  ((row.enum).map
    (fun p => (normalize_polys_cell p.2).map (fun a => lineOf p.1 W H a.rows))).flatten

/-- An object-dtype numpy ndarray (the `labelPolys` table): its shape and
its row-major cells. -/
structure ObjArr where
  shape : List Nat
  data : List CellValue
  size_eq : data.length = shape.prod

/-- The rows of a 2-D object array of shape `(N, C)`: row `i` is
`data[i*C : (i+1)*C]`. -/
def ObjArr.rows (t : ObjArr) : List (List CellValue) :=
  (List.range (t.shape.getD 0 0)).map
    (fun i => (t.data.drop (i * t.shape.getD 1 0)).take (t.shape.getD 1 0))

/-- The structural validation of `load_flat` (gtruth_flat_to_yolo.py),
after the key-presence checks: the table must be 2-D, and the image list
must match the table's row count.  No check involves `labelNames`. -/
def load_flat (imageFiles labelNames : List String) (labelPolys : ObjArr) :
    Except String (List String × List String × ObjArr) :=
  if labelPolys.shape.length ≠ 2 then
    .error "labelPolys debe ser 2D"
  else if imageFiles.length ≠ labelPolys.shape.getD 0 0 then
    .error "Mismatch: imageFiles vs labelPolys rows"
  else
    .ok (imageFiles, labelNames, labelPolys)

/-- The structural validation of `main` (filter_gtruth_flat_no_empty.py):
the same two checks as `load_flat`, in the same order; again no check
involves `labelNames`. -/
def filterChecks (imageFiles labelNames : List String) (labelPolys : ObjArr) :
    Except String Unit :=
  if labelPolys.shape.length ≠ 2 then
    .error "labelPolys debe ser 2D"
  else if imageFiles.length ≠ labelPolys.shape.getD 0 0 then
    .error "Mismatch: imageFiles vs labelPolys rows"
  else
    .ok ()

/-- What one run of `convert` writes and reports: the label files
produced (image identifier and its lines, in input order) and the two
counters it prints (`n_written`, `n_empty`).  There is no skip counter in
the source. -/
structure ConvertOut where
  files : List (String × List String)
  n_written : Nat
  n_empty : Nat
deriving DecidableEq

/-- The per-image loop of `convert`: an image whose file cannot be
located is skipped with `continue` before any label file is opened;
otherwise its label file (possibly with zero lines) is written and the
counters updated.  `dims` is the image-metadata collaborator
(`Path.is_file` plus `Image.open` giving `(W, H)`). -/
def convertLoop (dims : String → Option (Nat × Nat)) :
    List (String × List CellValue) → ConvertOut
  | [] => ⟨[], 0, 0⟩
  | (f, row) :: rest =>
    match dims f with
    | none => convertLoop dims rest
    | some wh =>
      let ls := labelLines wh.1 wh.2 row
      let r := convertLoop dims rest
      ⟨(f, ls) :: r.files, r.n_written + 1, r.n_empty + (if ls.isEmpty then 1 else 0)⟩

/-- `convert` runs `load_flat` first; a structural error propagates before
any label file is produced. -/
def convertTop (dims : String → Option (Nat × Nat))
    (imageFiles labelNames : List String) (labelPolys : ObjArr) :
    Except String ConvertOut :=
  match load_flat imageFiles labelNames labelPolys with
  | .error e => .error e
  | .ok (fs, _, tp) => .ok (convertLoop dims (fs.zip tp.rows))

/-- Specification-side count of the images the loop skips (those whose
file cannot be located). -/
def skippedCount (dims : String → Option (Nat × Nat))
    (imgs : List (String × List CellValue)) : Nat :=
  (imgs.filter (fun p => (dims p.1).isNone)).length

/-- `keep_idx` of the filter script: the row indices, in order, whose row
satisfies `row_has_any_polygon`. -/
def keepIdx (table : List (List CellValue)) : List Nat :=
  (List.range table.length).filter (fun i => row_has_any_polygon (table.getD i []))

/-- `image_files_f = [image_files[i] for i in keep_idx]`. -/
def filteredFiles (files : List String) (table : List (List CellValue)) : List String :=
  (keepIdx table).map (fun i => files.getD i "")

/-- `label_polys_f = label_polys[keep_idx, :]`. -/
def filteredTable (table : List (List CellValue)) : List (List CellValue) :=
  (keepIdx table).map (fun i => table.getD i [])

/-- Total row count (printed as `Total imágenes`). -/
def nTotal (table : List (List CellValue)) : Nat := table.length

/-- Retained row count (printed as `Con polígonos`). -/
def nKept (files : List String) (table : List (List CellValue)) : Nat :=
  (filteredFiles files table).length

/-- Dropped row count (printed as `Eliminadas`, computed in the source as
`n_images - len(image_files_f)`). -/
def nDropped (files : List String) (table : List (List CellValue)) : Nat :=
  nTotal table - nKept files table

/-- Extended cell domain for the error-handling analysis: `rstr s` models
an ndarray with `dtype != object` whose dtype cannot be cast to float
(e.g. a string array obtained from a MATLAB char matrix), of shape `s`.
The other constructors mirror `CellValue`. -/
inductive RawCell where
  | rnone : RawCell
  | rnum : NumArr → RawCell
  | rstr : List Nat → RawCell
  | rcontainer : List RawCell → RawCell
  | rother : RawCell

mutual
/-- `normalize_polys_cell` over the extended domain.  On a non-object
ndarray the source runs `np.array(cell_entry, dtype=float)` before any
shape check; when the dtype cannot be cast to float this raises
`ValueError` (modelled as `Except.error ()`), and an exception raised
inside the loop over a container's elements propagates out. -/
def normalizeRaw : RawCell → Except Unit (List NumArr)
  | .rnone => .ok []
  | .rnum a => .ok (if validShape a then [a] else [])
  | .rstr _ => .error ()
  | .rcontainer es => normalizeRawList es
  | .rother => .ok []
/-- The container loop with exception propagation. -/
def normalizeRawList : List RawCell → Except Unit (List NumArr)
  | [] => .ok []
  | e :: es =>
    match normalizeRaw e with
    | .error u => .error u
    | .ok l =>
      match normalizeRawList es with
      | .error u => .error u
      | .ok l2 => .ok (l ++ l2)
end

mutual
/-- Whether a raw cell contains a non-float-castable ndarray anywhere. -/
def hasStr : RawCell → Bool
  | .rnone => false
  | .rnum _ => false
  | .rstr _ => true
  | .rcontainer es => hasStrList es
  | .rother => false
def hasStrList : List RawCell → Bool
  | [] => false
  | e :: es => hasStr e || hasStrList es
end

/-- Re-filtering the flattener's output by the same validity test (the
re-check in the inner loop of `convert`) changes nothing. -/
theorem filter_normalize (v : CellValue) :
    (normalize_polys_cell v).filter validShape = normalize_polys_cell v := by
  rw [normalize_eq_filter, List.filter_filter]
  simp

/-- Index-based iteration over a list equals iteration over its
enumeration. -/
theorem flatMap_range_enumFrom {α β : Type} (l : List α) (d : α) (F : Nat → α → List β) :
    ∀ k, (List.range l.length).flatMap (fun c => F (k + c) (l.getD c d))
      = ((l.enumFrom k).map (fun p => F p.1 p.2)).flatten := by
  induction l with
  | nil => intro k; rfl
  | cons a l ih =>
    intro k
    rw [List.length_cons, List.range_succ_eq_map, List.flatMap_cons, List.flatMap_map]
    have harg : (fun c => F (k + Nat.succ c) ((a :: l).getD (Nat.succ c) d))
        = fun c => F (k + 1 + c) (l.getD c d) := by
      funext c
      rw [List.getD_cons_succ]
      congr 1
      omega
    rw [List.getD_cons_zero, Nat.add_zero, harg, ih (k + 1), List.enumFrom_cons,
      List.map_cons, List.flatten_cons]

/-- The row loop of `convert` produces exactly the class-major,
flattening-ordered line sequence. -/
theorem labelLines_eq_classMajor (W H : Nat) (row : List CellValue) :
    labelLines W H row = classMajorLines W H row := by
  unfold labelLines classMajorLines
  simp only [filter_normalize]
  have h := flatMap_range_enumFrom row CellValue.vnone
    (fun c cell => (normalize_polys_cell cell).map (fun a => lineOf c W H a.rows)) 0
  simp only [Nat.zero_add] at h
  rw [h]
  rfl

/-- A row produces at least one label line exactly when the filter-side
row predicate holds. -/
theorem labelLines_ne_nil_iff (W H : Nat) (row : List CellValue) :
    labelLines W H row ≠ [] ↔ row_has_any_polygon row = true := by
  rw [labelLines_eq_classMajor]
  unfold classMajorLines row_has_any_polygon
  rw [List.any_eq_true]
  constructor
  · intro hne
    rw [Ne, List.flatten_eq_nil_iff] at hne
    push_neg at hne
    obtain ⟨x, hx, hxne⟩ := hne
    obtain ⟨p, hp, rfl⟩ := List.mem_map.mp hx
    refine ⟨p.2, ?_, ?_⟩
    · have : p.2 ∈ row.enum.map Prod.snd := List.mem_map_of_mem Prod.snd hp
      rwa [List.enum_map_snd] at this
    · rw [Ne, List.map_eq_nil_iff] at hxne
      simp only [decide_eq_true_eq, count_eq_length]
      exact List.length_pos.mpr hxne
  · intro hex
    obtain ⟨e, he, hpe⟩ := hex
    simp only [decide_eq_true_eq, count_eq_length] at hpe
    have hne : normalize_polys_cell e ≠ [] := List.length_pos.mp hpe
    have he2 : e ∈ row.enum.map Prod.snd := by rwa [List.enum_map_snd]
    obtain ⟨p, hp, hsnd⟩ := List.mem_map.mp he2
    intro hnil
    rw [List.flatten_eq_nil_iff] at hnil
    have := hnil ((normalize_polys_cell p.2).map (fun a => lineOf p.1 W H a.rows))
      (List.mem_map_of_mem _ hp)
    rw [List.map_eq_nil_iff, hsnd] at this
    exact hne this

/-- Selecting the elements at the index subset where a predicate holds on
the element is the stable filter of the list. -/
theorem map_getD_filter_range {α : Type} (l : List α) (d : α) (p : α → Bool) :
    ((List.range l.length).filter (fun i => p (l.getD i d))).map (fun i => l.getD i d)
      = l.filter p := by
  induction l with
  | nil => rfl
  | cons a l ih =>
    rw [List.length_cons, List.range_succ_eq_map, List.filter_cons, List.filter_map]
    have hcomp : ((fun i => p ((a :: l).getD i d)) ∘ Nat.succ) = fun i => p (l.getD i d) := by
      funext i
      simp [Function.comp, List.getD_cons_succ]
    rw [hcomp]
    cases hpa : p a <;>
      simp [List.getD_cons_zero, hpa, List.map_map, Function.comp,
        List.getD_cons_succ, ← ih]

/-- Two-list version: reading a parallel list at the retained indices is
the stable filter of the zipped pair, projected. -/
theorem map_getD_filter_range_zip {α β : Type} :
    ∀ (l : List α) (m : List β) (dl : α) (dm : β) (p : β → Bool), l.length = m.length →
      ((List.range m.length).filter (fun i => p (m.getD i dm))).map (fun i => l.getD i dl)
        = ((l.zip m).filter (fun x => p x.2)).map Prod.fst := by
  intro l
  induction l with
  | nil =>
    intro m dl dm p hlen
    have : m = [] := List.eq_nil_of_length_eq_zero (by simpa using hlen.symm)
    subst this
    rfl
  | cons a l ih =>
    intro m dl dm p hlen
    cases m with
    | nil => simp at hlen
    | cons b m =>
      have hlen' : l.length = m.length := by simpa using hlen
      rw [List.length_cons, List.range_succ_eq_map, List.filter_cons, List.filter_map]
      have hcomp : ((fun i => p ((b :: m).getD i dm)) ∘ Nat.succ) = fun i => p (m.getD i dm) := by
        funext i
        simp [Function.comp, List.getD_cons_succ]
      rw [hcomp]
      have ihm := ih m dl dm p hlen'
      cases hpb : p b <;>
        simp [List.getD_cons_zero, hpb, List.map_map, Function.comp, List.getD_cons_succ,
          List.zip_cons_cons, List.filter_cons, ← ihm]

/-- The retained table is the stable filter of the original table. -/
theorem filteredTable_eq (table : List (List CellValue)) :
    filteredTable table = table.filter row_has_any_polygon := by
  unfold filteredTable keepIdx
  exact map_getD_filter_range table [] row_has_any_polygon

/-- With aligned lengths, the retained image list is the projection of the
stable filter of the zipped rows. -/
theorem filteredFiles_eq (files : List String) (table : List (List CellValue))
    (h : files.length = table.length) :
    filteredFiles files table
      = ((files.zip table).filter (fun x => row_has_any_polygon x.2)).map Prod.fst := by
  unfold filteredFiles keepIdx
  exact map_getD_filter_range_zip files table "" [] row_has_any_polygon h

/-- The retained image list is an order-preserving subsequence of the
original. -/
theorem filteredFiles_sublist (files : List String) (table : List (List CellValue))
    (h : files.length = table.length) :
    (filteredFiles files table).Sublist files := by
  rw [filteredFiles_eq files table h]
  have h1 : (((files.zip table).filter (fun x => row_has_any_polygon x.2)).map
      Prod.fst).Sublist ((files.zip table).map Prod.fst) :=
    (List.filter_sublist _).map Prod.fst
  rwa [List.map_fst_zip files table (le_of_eq h)] at h1

/-- The kept count never exceeds the total. -/
theorem nKept_le_nTotal (files : List String) (table : List (List CellValue)) :
    nKept files table ≤ nTotal table := by
  unfold nKept nTotal filteredFiles keepIdx
  rw [List.length_map]
  calc ((List.range table.length).filter _).length
      ≤ (List.range table.length).length := List.length_filter_le _ _
    _ = table.length := List.length_range _

/-- The per-image loop: exactly the located images produce a label file,
in input order, with their full line list; `n_written` counts the files
written and `n_empty` the written files with zero lines. -/
theorem convertLoop_spec (dims : String → Option (Nat × Nat))
    (imgs : List (String × List CellValue)) :
    (convertLoop dims imgs).files
      = imgs.filterMap (fun p => (dims p.1).map (fun wh => (p.1, labelLines wh.1 wh.2 p.2))) ∧
    (convertLoop dims imgs).n_written = (convertLoop dims imgs).files.length ∧
    (convertLoop dims imgs).n_empty
      = ((convertLoop dims imgs).files.filter (fun f => f.2.isEmpty)).length := by
  induction imgs with
  | nil => exact ⟨rfl, rfl, rfl⟩
  | cons p rest ih =>
    obtain ⟨f, row⟩ := p
    cases hd : dims f with
    | none =>
      simpa [convertLoop, hd, List.filterMap_cons] using ih
    | some wh =>
      obtain ⟨ih1, ih2, ih3⟩ := ih
      refine ⟨?_, ?_, ?_⟩
      · simp [convertLoop, hd, List.filterMap_cons, ih1]
      · simp [convertLoop, hd, ih2]
      · simp only [convertLoop, hd]
        rw [ih3]
        cases hls : (labelLines wh.1 wh.2 row).isEmpty <;>
          simp [List.filter_cons, hls]

/-- Induction over `RawCell` with container members available. -/
theorem raw_induction (P : RawCell → Prop) (hn : P .rnone) (hm : ∀ a, P (.rnum a))
    (hs : ∀ s, P (.rstr s)) (ho : P .rother)
    (hc : ∀ es, (∀ e ∈ es, P e) → P (.rcontainer es)) : ∀ v, P v := by
  intro v
  refine RawCell.rec (motive_1 := P) (motive_2 := fun l => ∀ e ∈ l, P e)
    hn hm hs (fun es h => hc es h) ho ?_ ?_ v
  · intro e he; simp at he
  · intro e es he hes x hx
    rcases List.mem_cons.mp hx with h | h
    · exact h ▸ he
    · exact hes x h

/-- Over the extended domain, flattening succeeds exactly when no
non-float-castable (string-dtype) ndarray occurs anywhere in the cell. -/
theorem normalizeRaw_isOk (v : RawCell) : (normalizeRaw v).isOk = !hasStr v := by
  induction v using raw_induction with
  | hn => rfl
  | hm a => rfl
  | hs s => rfl
  | ho => rfl
  | hc es ih =>
    show (normalizeRawList es).isOk = !hasStrList es
    induction es with
    | nil => rfl
    | cons e es ih2 =>
      have ihe := ih e (List.mem_cons_self e es)
      have ihes := ih2 (fun x hx => ih x (List.mem_cons_of_mem _ hx))
      show (normalizeRawList (e :: es)).isOk = !hasStrList (e :: es)
      rw [show hasStrList (e :: es) = (hasStr e || hasStrList es) from rfl]
      cases he : normalizeRaw e with
      | error u =>
        rw [he] at ihe
        simp only [normalizeRawList, he]
        simp [Except.isOk, Except.toBool] at ihe ⊢
        simp [← ihe]
      | ok l =>
        rw [he] at ihe
        simp [Except.isOk, Except.toBool] at ihe
        cases hes : normalizeRawList es with
        | error u =>
          rw [hes] at ihes
          simp [Except.isOk, Except.toBool] at ihes
          simp only [normalizeRawList, he, hes]
          simp [Except.isOk, Except.toBool, ihe, ihes]
        | ok l2 =>
          rw [hes] at ihes
          simp [Except.isOk, Except.toBool] at ihes
          simp only [normalizeRawList, he, hes]
          simp [Except.isOk, Except.toBool, ihe, ihes]

/-- Every normalized coordinate is strictly positive and at most 1. -/
theorem normCoords_mem_bounds {W H : Nat} (hW : 1 ≤ W) (hH : 1 ≤ H) (pts : List (ℚ × ℚ)) :
    ∀ v ∈ normCoords W H pts, 0 < v ∧ v ≤ 1 := by
  have hW' : (1 : ℚ) ≤ (W : ℚ) := by exact_mod_cast hW
  have hH' : (1 : ℚ) ≤ (H : ℚ) := by exact_mod_cast hH
  have hW0 : (0 : ℚ) < (W : ℚ) := lt_of_lt_of_le one_pos hW'
  have hH0 : (0 : ℚ) < (H : ℚ) := lt_of_lt_of_le one_pos hH'
  induction pts with
  | nil => intro v hv; simp [normCoords_nil] at hv
  | cons p pts ih =>
    intro v hv
    rw [normCoords_cons] at hv
    rcases List.mem_cons.mp hv with rfl | hv2
    · obtain ⟨h1, h2⟩ := normed_bounds hW' p.1
      exact ⟨lt_of_lt_of_le (div_pos one_pos hW0) h1, h2⟩
    · rcases List.mem_cons.mp hv2 with rfl | hv3
      · obtain ⟨h1, h2⟩ := normed_bounds hH' p.2
        exact ⟨lt_of_lt_of_le (div_pos one_pos hH0) h1, h2⟩
      · exact ih v hv3

/-- The coordinates at even positions (the x axis) lie in `[1/W, 1]` and
those at odd positions (the y axis) lie in `[1/H, 1]`. -/
theorem normCoords_parity_bounds {W H : Nat} (hW : 1 ≤ W) (hH : 1 ≤ H) :
    ∀ (pts : List (ℚ × ℚ)) (i : Nat), i < pts.length →
      (1 / (W : ℚ) ≤ (normCoords W H pts).getD (2 * i) 0 ∧
        (normCoords W H pts).getD (2 * i) 0 ≤ 1) ∧
      (1 / (H : ℚ) ≤ (normCoords W H pts).getD (2 * i + 1) 0 ∧
        (normCoords W H pts).getD (2 * i + 1) 0 ≤ 1) := by
  have hW' : (1 : ℚ) ≤ (W : ℚ) := by exact_mod_cast hW
  have hH' : (1 : ℚ) ≤ (H : ℚ) := by exact_mod_cast hH
  intro pts
  induction pts with
  | nil => intro i hi; simp at hi
  | cons p pts ih =>
    intro i hi
    cases i with
    | zero =>
      rw [normCoords_cons]
      constructor
      · simpa using normed_bounds hW' p.1
      · simpa using normed_bounds hH' p.2
    | succ j =>
      have hj : j < pts.length := by simpa using Nat.lt_of_succ_lt_succ hi
      have hres := ih j hj
      rw [normCoords_cons]
      have e1 : 2 * (j + 1) = 2 * j + 1 + 1 := by ring
      rw [e1]
      simp only [List.getD_cons_succ]
      exact hres

/-- The gtruth-side validity test, characterised. -/
theorem validShape_iff (a : NumArr) :
    validShape a = true ↔ (a.ndim = 2 ∧ a.shape.getD 1 0 = 2 ∧ 3 ≤ a.shape.getD 0 0) := by
  unfold validShape
  simp [Bool.and_eq_true, and_assoc]

/-- C1: for every cell value, CellFlattener (`normalize_polys_cell`)
returns exactly the valid leaf polygons in depth-first, left-to-right
traversal order, at any nesting depth; empty and all-empty containers
contribute nothing and cause no error. -/
theorem claim_C1_flattening_order :
    (∀ v : CellValue, normalize_polys_cell v = (dfsLeaves v).filter validShape) ∧
    normalize_polys_cell (.container []) = [] ∧
    normalize_polys_cell (.container [.container [], .vnone, .container [.container []]]) = [] :=
  ⟨normalize_eq_filter, rfl, rfl⟩

/-- C2: the validator accepts exactly the 2-D arrays with 2 columns and
at least 3 rows; a polygon with fewer than 3 points never appears in the
flattener's output, and every valid leaf polygon appears exactly as often
as it occurs as a leaf (in particular, a leaf occurring once appears
exactly once). -/
theorem claim_C2_validator_membership :
    (∀ a : NumArr, validShape a = true ↔
      (a.ndim = 2 ∧ a.shape.getD 1 0 = 2 ∧ 3 ≤ a.shape.getD 0 0)) ∧
    (∀ (v : CellValue) (a : NumArr) (n : Nat), a.shape = [n, 2] → n < 3 →
      a ∉ normalize_polys_cell v) ∧
    (∀ (v : CellValue) (a : NumArr) (n : Nat), a.shape = [n, 2] → 3 ≤ n →
      (normalize_polys_cell v).count a = (dfsLeaves v).count a) := by
  refine ⟨validShape_iff, ?_, ?_⟩
  · intro v a n hsh hn hmem
    have hv := (validShape_iff a).mp (mem_normalize_valid hmem)
    rw [hsh] at hv
    simp at hv
    omega
  · intro v a n hsh hn
    rw [normalize_eq_filter]
    refine List.count_filter ?_
    rw [validShape_iff]
    unfold NumArr.ndim
    rw [hsh]
    refine ⟨rfl, rfl, ?_⟩
    simpa using hn

/-- C2 witness: concrete instantiation at a 3-point triangle nested in a
container, and at a 2-point degenerate entry. -/
theorem claim_C2_witness :
    ((⟨[3, 2], [1, 1, 5, 1, 5, 5], rfl⟩ : NumArr).shape = [3, 2] ∧ 3 ≤ 3 ∧
      (normalize_polys_cell (.container [.num ⟨[3, 2], [1, 1, 5, 1, 5, 5], rfl⟩])).count
          ⟨[3, 2], [1, 1, 5, 1, 5, 5], rfl⟩
        = (dfsLeaves (.container [.num ⟨[3, 2], [1, 1, 5, 1, 5, 5], rfl⟩])).count
          ⟨[3, 2], [1, 1, 5, 1, 5, 5], rfl⟩) ∧
    ((⟨[2, 2], [0, 0, 1, 1], rfl⟩ : NumArr).shape = [2, 2] ∧ 2 < 3 ∧
      (⟨[2, 2], [0, 0, 1, 1], rfl⟩ : NumArr) ∉
        normalize_polys_cell (.num ⟨[2, 2], [0, 0, 1, 1], rfl⟩)) :=
  ⟨⟨rfl, by norm_num,
      claim_C2_validator_membership.2.2 _ _ 3 rfl (by norm_num)⟩,
    ⟨rfl, by norm_num,
      claim_C2_validator_membership.2.1 _ _ 2 rfl (by norm_num)⟩⟩

/-- C3: the filter-side count equals the length of the writer-side
flattening for every cell, and hence a row satisfies the row predicate
exactly when the writer's per-row loop produces at least one label
line. -/
theorem claim_C3_refinement_agreement :
    (∀ e : CellValue, polys_in_entry e = (normalize_polys_cell e).length) ∧
    (∀ (row : List CellValue) (W H : Nat),
      row_has_any_polygon row = true ↔ labelLines W H row ≠ []) :=
  ⟨count_eq_length, fun row W H => (labelLines_ne_nil_iff W H row).symm⟩

/-- C4: the emitted line is exactly the spec's four-stage pipeline —
clamp x to `[1, W]` and y to `[1, H]`, divide by `W` resp. `H`,
interleave in original vertex order, and render space-separated with the
class identifier first and 6-decimal coordinates — and the vertex count
is unchanged (`2 n` coordinates for `n` vertices). -/
theorem claim_C4_line_pipeline (cid W H : Nat) (pts : List (ℚ × ℚ))
    (hW : 1 ≤ W) (hH : 1 ≤ H) :
    lineOf cid W H pts = lineOfSpec cid W H pts ∧
    (normCoords W H pts).length = 2 * pts.length := by
  constructor
  · unfold lineOf lineOfSpec
    rw [normCoords_eq_spec W H hW hH]
  · exact normCoords_length W H pts

/-- C4 witness: the spec's example triangle with `W = H = 10` and class 1. -/
theorem claim_C4_witness :
    1 ≤ 10 ∧ 1 ≤ 10 ∧
      (lineOf 1 10 10 [((1 : ℚ), (1 : ℚ)), (5, 1), (5, 5)]
          = lineOfSpec 1 10 10 [((1 : ℚ), (1 : ℚ)), (5, 1), (5, 5)] ∧
        (normCoords 10 10 [((1 : ℚ), (1 : ℚ)), (5, 1), (5, 5)]).length
          = 2 * [((1 : ℚ), (1 : ℚ)), (5, 1), (5, 5)].length) :=
  ⟨by norm_num, by norm_num,
    claim_C4_line_pipeline 1 10 10 _ (by norm_num) (by norm_num)⟩

/-- C5: with positive dimensions, every emitted coordinate is in `(0, 1]`,
the x coordinates (even positions) are in `[1/W, 1]` and the y coordinates
(odd positions) are in `[1/H, 1]`. -/
theorem claim_C5_coordinate_bounds (W H : Nat) (hW : 1 ≤ W) (hH : 1 ≤ H)
    (pts : List (ℚ × ℚ)) :
    (∀ v ∈ normCoords W H pts, 0 < v ∧ v ≤ 1) ∧
    (∀ i < pts.length,
      (1 / (W : ℚ) ≤ (normCoords W H pts).getD (2 * i) 0 ∧
        (normCoords W H pts).getD (2 * i) 0 ≤ 1) ∧
      (1 / (H : ℚ) ≤ (normCoords W H pts).getD (2 * i + 1) 0 ∧
        (normCoords W H pts).getD (2 * i + 1) 0 ≤ 1)) :=
  ⟨normCoords_mem_bounds hW hH pts, normCoords_parity_bounds hW hH pts⟩

/-- C5 witness: `W = 10`, `H = 4`, a single point `(5, 3)`, index 0. -/
theorem claim_C5_witness :
    1 ≤ 10 ∧ 1 ≤ 4 ∧ 0 < [((5 : ℚ), (3 : ℚ))].length ∧
      ((1 / ((10 : Nat) : ℚ) ≤ (normCoords 10 4 [((5 : ℚ), (3 : ℚ))]).getD (2 * 0) 0 ∧
        (normCoords 10 4 [((5 : ℚ), (3 : ℚ))]).getD (2 * 0) 0 ≤ 1) ∧
      (1 / ((4 : Nat) : ℚ) ≤ (normCoords 10 4 [((5 : ℚ), (3 : ℚ))]).getD (2 * 0 + 1) 0 ∧
        (normCoords 10 4 [((5 : ℚ), (3 : ℚ))]).getD (2 * 0 + 1) 0 ≤ 1)) :=
  ⟨by norm_num, by norm_num, by norm_num,
    (claim_C5_coordinate_bounds 10 4 (by norm_num) (by norm_num) _).2 0 (by norm_num)⟩

/-- C6: for an aligned table, retained plus dropped equals total, the
retained image list is an order-preserving subsequence of the original,
and the retained table is exactly the stable filter of the original rows
with unchanged cell contents. -/
theorem claim_C6_filter_conservation (files : List String) (table : List (List CellValue))
    (h : files.length = table.length) :
    nKept files table + nDropped files table = nTotal table ∧
    (filteredFiles files table).Sublist files ∧
    filteredTable table = table.filter row_has_any_polygon := by
  refine ⟨?_, filteredFiles_sublist files table h, filteredTable_eq table⟩
  unfold nDropped
  have := nKept_le_nTotal files table
  omega

/-- C6 witness: a two-row table where only the second row has a valid
polygon. -/
theorem claim_C6_witness :
    (["a", "b"] : List String).length
        = ([[CellValue.vnone], [CellValue.num ⟨[3, 2], [1, 1, 5, 1, 5, 5], rfl⟩]]
            : List (List CellValue)).length ∧
      (nKept ["a", "b"] [[CellValue.vnone], [CellValue.num ⟨[3, 2], [1, 1, 5, 1, 5, 5], rfl⟩]]
          + nDropped ["a", "b"]
            [[CellValue.vnone], [CellValue.num ⟨[3, 2], [1, 1, 5, 1, 5, 5], rfl⟩]]
        = nTotal [[CellValue.vnone], [CellValue.num ⟨[3, 2], [1, 1, 5, 1, 5, 5], rfl⟩]] ∧
      (filteredFiles ["a", "b"]
          [[CellValue.vnone], [CellValue.num ⟨[3, 2], [1, 1, 5, 1, 5, 5], rfl⟩]]).Sublist
        ["a", "b"] ∧
      filteredTable [[CellValue.vnone], [CellValue.num ⟨[3, 2], [1, 1, 5, 1, 5, 5], rfl⟩]]
        = List.filter row_has_any_polygon
            [[CellValue.vnone], [CellValue.num ⟨[3, 2], [1, 1, 5, 1, 5, 5], rfl⟩]]) :=
  ⟨rfl, claim_C6_filter_conservation _ _ rfl⟩

/-- C7 counterexample: a run whose `labelNames` list has length 0 while
the table has 2 columns is accepted by `load_flat` — a ClassCatalog
length mismatch does not abort the run, contradicting the claim. -/
theorem claim_C7_counterexample :
    load_flat ["a"] [] ⟨[1, 2], [CellValue.vnone, CellValue.vnone], rfl⟩
        = .ok (["a"], [], ⟨[1, 2], [CellValue.vnone, CellValue.vnone], rfl⟩) ∧
      ([] : List String).length
        ≠ (⟨[1, 2], [CellValue.vnone, CellValue.vnone], rfl⟩ : ObjArr).shape.getD 1 0 := by
  constructor
  · rfl
  · decide

/-- C7 amended: the structural checks abort exactly on a non-2-D table or
an image-list/row-count mismatch (in both scripts, independently of
`labelNames`), and a failing check propagates out of `convert` before any
label output is produced.  The ClassCatalog length is never validated. -/
theorem claim_C7_structural_checks :
    ∀ (dims : String → Option (Nat × Nat)) (fs ns : List String) (tp : ObjArr),
      ((load_flat fs ns tp).isOk
        ↔ (tp.shape.length = 2 ∧ fs.length = tp.shape.getD 0 0)) ∧
      ((filterChecks fs ns tp).isOk
        ↔ (tp.shape.length = 2 ∧ fs.length = tp.shape.getD 0 0)) ∧
      (convertTop dims fs ns tp).isOk = (load_flat fs ns tp).isOk := by
  intro dims fs ns tp
  refine ⟨?_, ?_, ?_⟩
  · unfold load_flat
    by_cases h1 : tp.shape.length = 2
    · rw [if_neg (not_not_intro h1)]
      by_cases h2 : fs.length = tp.shape.getD 0 0
      · rw [if_neg (not_not_intro h2)]
        simp [Except.isOk, Except.toBool, h1, h2]
      · rw [if_pos h2]
        rw [List.getD_eq_getElem?_getD] at h2
        simp [Except.isOk, Except.toBool, h2]
    · rw [if_pos h1]
      simp [Except.isOk, Except.toBool, h1]
  · unfold filterChecks
    by_cases h1 : tp.shape.length = 2
    · rw [if_neg (not_not_intro h1)]
      by_cases h2 : fs.length = tp.shape.getD 0 0
      · rw [if_neg (not_not_intro h2)]
        simp [Except.isOk, Except.toBool, h1, h2]
      · rw [if_pos h2]
        rw [List.getD_eq_getElem?_getD] at h2
        simp [Except.isOk, Except.toBool, h2]
    · rw [if_pos h1]
      simp [Except.isOk, Except.toBool, h1]
  · unfold convertTop
    cases hl : load_flat fs ns tp with
    | error e => simp [hl, Except.isOk, Except.toBool]
    | ok v => simp [hl, Except.isOk, Except.toBool]

/-- C8 counterexample: on a cell holding a non-object ndarray whose dtype
cannot be cast to float (e.g. a 3-by-2 string array), the flattener
raises (`np.array(cell_entry, dtype=float)` raises `ValueError` before
any shape test), so CellFlattener does not absorb every malformed entry. -/
theorem claim_C8_counterexample : normalizeRaw (.rstr [3, 2]) = .error () := rfl

/-- C8 amended: flattening raises exactly on cells containing a
non-float-castable (string-dtype) ndarray; on every other value —
including every malformed numeric shape, `None`, nested containers and
non-ndarray values — it succeeds, absorbing malformed entries as "no
polygon".  (The filter-side counter `polys_in_entry` converts with
`np.asarray(entry)` without a dtype and never raises.) -/
theorem claim_C8_flattener_totality :
    ∀ v : RawCell, (normalizeRaw v).isOk = !hasStr v :=
  normalizeRaw_isOk

/-- C9 counterexample: two runs with different numbers of missing images
(one vs. two, all images missing) produce identical outputs and identical
reported counters, so the number of skipped images is not counted or
reported by `convert`. -/
theorem claim_C9_counterexample :
    convertLoop (fun _ => none) [("a", [])]
        = convertLoop (fun _ => none) [("a", []), ("b", [])] ∧
      skippedCount (fun _ => none) [("a", [])]
        ≠ skippedCount (fun _ => none) [("a", []), ("b", [])] := by
  constructor
  · rfl
  · decide

/-- C9 amended: an image whose file cannot be located is skipped entirely
— it contributes no label file and no lines — and the loop continues with
the remaining images in order; `n_written` counts the files written and
`n_empty` the written files with zero lines, but no skip count is
reported. -/
theorem claim_C9_skip_behaviour :
    ∀ (dims : String → Option (Nat × Nat)) (imgs : List (String × List CellValue)),
      (convertLoop dims imgs).files
        = imgs.filterMap (fun p => (dims p.1).map (fun wh => (p.1, labelLines wh.1 wh.2 p.2))) ∧
      (convertLoop dims imgs).n_written = (convertLoop dims imgs).files.length ∧
      (convertLoop dims imgs).n_empty
        = ((convertLoop dims imgs).files.filter (fun f => f.2.isEmpty)).length :=
  convertLoop_spec

/-- C10: the writer's per-row output is exactly the class-major sequence:
blocks in ascending class index, within a block the flattening order of
that class's polygons; and every line begins with its class identifier. -/
theorem claim_C10_class_major_order :
    (∀ (W H : Nat) (row : List CellValue), labelLines W H row = classMajorLines W H row) ∧
    (∀ (c W H : Nat) (pts : List (ℚ × ℚ)),
      ∃ s, lineOf c W H pts = toString c ++ " " ++ s) :=
  ⟨labelLines_eq_classMajor, fun c W H pts => ⟨_, rfl⟩⟩

/-- Sanity check: flattening preserves depth-first order and drops the
2-point entry, on a nested container. -/
theorem sanity_flattening_example :
    normalize_polys_cell
        (.container [.num ⟨[2, 2], [0, 0, 1, 1], rfl⟩,
          .container [.num ⟨[3, 2], [1, 1, 5, 1, 5, 5], rfl⟩, .vnone],
          .num ⟨[4, 2], [0, 0, 0, 9, 9, 9, 9, 0], rfl⟩])
      = [⟨[3, 2], [1, 1, 5, 1, 5, 5], rfl⟩, ⟨[4, 2], [0, 0, 0, 9, 9, 9, 9, 0], rfl⟩] := rfl

/-- Sanity check: the filter-side count on the same nested container. -/
theorem sanity_count_example :
    polys_in_entry
        (.container [.num ⟨[2, 2], [0, 0, 1, 1], rfl⟩,
          .container [.num ⟨[3, 2], [1, 1, 5, 1, 5, 5], rfl⟩, .vnone],
          .num ⟨[4, 2], [0, 0, 0, 9, 9, 9, 9, 0], rfl⟩])
      = 2 := rfl

/-- Sanity check: the spec's example triangle `(1,1),(5,1),(5,5)` at
`W = H = 10`, class 1, renders to the expected line. -/
theorem sanity_line_example :
    lineOf 1 10 10 [((1 : ℚ), (1 : ℚ)), (5, 1), (5, 5)]
      = "1 0.100000 0.100000 0.500000 0.100000 0.500000 0.500000" := by
  have hc : normCoords 10 10 [((1 : ℚ), (1 : ℚ)), (5, 1), (5, 5)]
      = [1/10, 1/10, 1/2, 1/10, 1/2, 1/2] := by
    simp [normCoords, interleave, clipQ]
    norm_num
  have f1 : fmt6 ((1 : ℚ)/10) = "0.100000" := by
    have h : ((1 : ℚ)/10) * 1000000 = 100000 := by norm_num
    unfold fmt6
    rw [h]
    decide
  have f2 : fmt6 ((1 : ℚ)/2) = "0.500000" := by
    have h : ((1 : ℚ)/2) * 1000000 = 500000 := by norm_num
    unfold fmt6
    rw [h]
    decide
  unfold lineOf
  rw [hc]
  simp only [List.map_cons, List.map_nil, f1, f2]
  decide
